import Mathlib

/-!
Shallow embedding of the `mcp-llm-bridge` repository's query tool
(`src/mcp_llm_bridge/tools.py`) and of the bridge's tool-name sanitization,
together with theorems settling the specification claims about them.

Python `dict`s (insertion-ordered, last-write-wins) are modelled as
association lists; Python strings are modelled through their character
lists; fallible code returns `Except`.
-/

namespace MCPBridge

/-! ### Python `dict` model -/

/-- First-match lookup, Python `d[k]` / `k in d`. -/
def dlookup {α : Type} (k : String) : List (String × α) → Option α
  | [] => none
  | (a, b) :: m => if k = a then some b else dlookup k m

/-- Python `d[k] = v` on an insertion-ordered dict: if the key is present the
value is replaced in place (position kept), otherwise the pair is appended. -/
def dinsert {α : Type} (m : List (String × α)) (k : String) (v : α) :
    List (String × α) :=
  if (dlookup k m).isSome then
    m.map (fun p => if p.1 = k then (k, v) else p)
  else
    m ++ [(k, v)]

/-- Python `dict(pairs)`: left-to-right insertion. -/
def dictOfPairs {α : Type} (ps : List (String × α)) : List (String × α) :=
  ps.foldl (fun m p => dinsert m p.1 p.2) []

/-! ### Data model: `DatabaseSchema` and the schema registry -/

/-- `DatabaseSchema` dataclass from `tools.py`: `columns` is the
insertion-ordered dict mapping column name to type name. -/
structure DatabaseSchema where
  table_name : String
  columns : List (String × String)
  description : String
deriving DecidableEq

/-- The registry `self.schemas : Dict[str, DatabaseSchema]`. -/
abbrev Registry := List (String × DatabaseSchema)

/-- `register_schema(schema)`: `self.schemas[schema.table_name] = schema`. -/
def register_schema (m : Registry) (s : DatabaseSchema) : Registry :=
  dinsert m s.table_name s

/-- The default `products` schema registered by `DatabaseQueryTool.__init__`. -/
def productsSchema : DatabaseSchema :=
  { table_name := "products"
    columns := [("id", "INTEGER"), ("title", "TEXT"), ("description", "TEXT"),
                ("price", "REAL"), ("category", "TEXT"), ("stock", "INTEGER"),
                ("created_at", "DATETIME")]
    description := "Product catalog with items for sale" }

/-- The registry of a freshly constructed `DatabaseQueryTool`: `__init__`
starts from an empty dict and calls `register_schema` on the default
`products` schema. -/
def defaultRegistry : Registry := register_schema [] productsSchema

/-- Column names of a schema (`schema.columns` keys), as character lists. -/
def colNamesL (s : DatabaseSchema) : List (List Char) :=
  s.columns.map (fun p => p.1.data)

/-! ### `validate_query` -/

/-- Python `str.lower()` (ASCII-relevant part, via `Char.toLower`). -/
def lowerChars (l : List Char) : List Char := l.map Char.toLower

/-- Helper for `pywords`: accumulates the current word in reverse. -/
def wordsAux : List Char → List Char → List (List Char)
  | acc, [] => if acc = [] then [] else [acc.reverse]
  | acc, c :: cs =>
    if c.isWhitespace then
      if acc = [] then wordsAux [] cs else acc.reverse :: wordsAux [] cs
    else wordsAux (c :: acc) cs

/-- Python `str.split()` with no argument: split on whitespace runs,
dropping empty pieces. -/
def pywords (l : List Char) : List (List Char) := wordsAux [] l

/-- Python `str.split('.')`. -/
def splitDots : List Char → List (List Char)
  | [] => [[]]
  | c :: cs =>
    if c = '.' then [] :: splitDots cs
    else
      match splitDots cs with
      | [] => [[c]]
      | p :: ps => (c :: p) :: ps

/-- Inner loop of `validate_query` for one schema: scan the query's words;
`table, column = word.split('.')` raises (modelled `Except.error ()`) when
the split does not have exactly two parts; `return False` on a matching
table with an unknown column. -/
def checkWords (tbl : List Char) (cols : List (List Char)) :
    List (List Char) → Except Unit Bool
  | [] => Except.ok true
  | w :: ws =>
    if ('.' : Char) ∈ w then
      match splitDots w with
      | [t, c] =>
        if t = tbl ∧ c ∉ cols then Except.ok false
        else checkWords tbl cols ws
      | _ => Except.error ()
    else checkWords tbl cols ws

/-- Outer loop of `validate_query`: schemas in registry order, each guarded
by the substring test `schema.table_name in query`. -/
def checkSchemas (q : List Char) (ws : List (List Char)) :
    List DatabaseSchema → Except Unit Bool
  | [] => Except.ok true
  | s :: ss =>
    if s.table_name.data <:+: q then
      match checkWords s.table_name.data (colNamesL s) ws with
      | Except.ok true => checkSchemas q ws ss
      | r => r
    else checkSchemas q ws ss

/-- `DatabaseQueryTool.validate_query`: lowercase the query, then for every
registered schema whose table name occurs in it, reject words that reference
a nonexistent column of that table. `Except.error ()` models the
tuple-unpacking `ValueError` escaping the method. -/
def validate_query (reg : Registry) (query : String) : Except Unit Bool :=
  checkSchemas (lowerChars query.data) (pywords (lowerChars query.data))
    (reg.map Prod.snd)

/-! ### `execute`

The SQLite store is modelled as a function from the query text to either a
store-level error or a pair (column names reported by the cursor, rows).
`execute` additionally returns the list of connection events it performed,
so that the resource claim is statable. -/

/-- Connection lifecycle events performed by `execute`. -/
inductive ConnEvent where
  | opened
  | closed
deriving DecidableEq

/-- The errors `execute` can finish with. The first three are Python
`ValueError`s (`validateRaise` is the tuple-unpacking `ValueError` escaping
`validate_query`); `dbError` is a store-level (`sqlite3`) error. -/
inductive ExecError (ε : Type) where
  | missingQuery
  | invalidColumns
  | validateRaise
  | dbError (e : ε)

/-- Which `ExecError`s are Python `ValueError`s. -/
def isValueError {ε : Type} : ExecError ε → Bool
  | .dbError _ => false
  | _ => true

/-- `dict(zip(columns, row))` for one result row. -/
def rowToDict {V : Type} (cols : List String) (r : List V) :
    List (String × V) :=
  dictOfPairs (cols.zip r)

/-- `DatabaseQueryTool.execute(params)`. `params` is modelled by its
`query` entry (`none` = key absent); `if not query` also fires on the empty
string. The `try/finally` block opens a connection, runs the query, maps
the rows, and closes the connection on success and on store error alike. -/
def execute {ε V : Type} (reg : Registry)
    (db : String → Except ε (List String × List (List V)))
    (params : Option String) :
    Except (ExecError ε) (List (List (String × V))) × List ConnEvent :=
  match params with
  | none => (Except.error ExecError.missingQuery, [])
  | some q =>
    if q = "" then (Except.error ExecError.missingQuery, [])
    else
      match validate_query reg q with
      | Except.error _ => (Except.error ExecError.validateRaise, [])
      | Except.ok false => (Except.error ExecError.invalidColumns, [])
      | Except.ok true =>
        match db q with
        | Except.error e =>
            (Except.error (ExecError.dbError e), [ConnEvent.opened, ConnEvent.closed])
        | Except.ok (cols, rows) =>
            (Except.ok (rows.map (rowToDict cols)), [ConnEvent.opened, ConnEvent.closed])

/-! ### Tool-name sanitization -/

/-- Separator characters collapsed by sanitization: whitespace or hyphen. -/
def sepChar (c : Char) : Bool := c.isWhitespace || c = '-'

/-- Helper for `sanitize`: the flag records whether the previous character
belonged to a separator run already replaced by an underscore. -/
def sanitizeAux : Bool → List Char → List Char
  | _, [] => []
  | prevSep, c :: cs =>
    if sepChar c then
      if prevSep then sanitizeAux true cs else '_' :: sanitizeAux true cs
    else Char.toLower c :: sanitizeAux false cs

/-- Modelled from the spec: the bridge's `_sanitize_tool_name` (the
`bridge.py` module is not part of the sources at hand, only its tests and
the spec describe it) — "lower-case, replace each run of whitespace or
hyphens with a single underscore". -/
def sanitize (s : String) : String := String.mk (sanitizeAux false s.data)

/-! ### Concrete store instances used in witnesses and counterexamples -/

/-- A store answering every query with columns `title`, `price` and two
rows, as the demo `products` database would for
`SELECT title, price FROM products WHERE price < 30`. -/
def db0 : String → Except Unit (List String × List (List Nat)) :=
  fun _ => Except.ok (["title", "price"], [[1, 2], [3, 4]])

/-- A store answering with a duplicated column name, as SQLite's cursor
reports for `SELECT title, title FROM products`. -/
def dbDup : String → Except Unit (List String × List (List Nat)) :=
  fun _ => Except.ok (["title", "title"], [[1, 2]])

/-- A schema whose table name contains an uppercase character. -/
def upperSchema : DatabaseSchema :=
  { table_name := "Products"
    columns := [("id", "INTEGER")]
    description := "capitalized table name" }

/-! ## Helper lemmas -/

/-! ### Characters -/

theorem char_toNat_ofNat (m : Nat) (h : m < 55296) : (Char.ofNat m).toNat = m := by
  have hv : m.isValidChar := Or.inl h
  rw [Char.ofNat, dif_pos hv]
  simp [Char.ofNatAux, Char.toNat, UInt32.toNat]

theorem toLower_eq (c : Char) :
    Char.toLower c =
      if c.toNat ≥ 65 ∧ c.toNat ≤ 90 then Char.ofNat (c.toNat + 32) else c := rfl

theorem char_toNat_lt (c : Char) : c.toNat < 1114112 := by
  rcases c.valid with h | h
  · exact Nat.lt_trans h (by norm_num)
  · exact h.2

theorem toLower_toLower (c : Char) : (Char.toLower c).toLower = Char.toLower c := by
  by_cases h : c.toNat ≥ 65 ∧ c.toNat ≤ 90
  · rw [toLower_eq c, if_pos h]
    have ht : (Char.ofNat (c.toNat + 32)).toNat = c.toNat + 32 :=
      char_toNat_ofNat _ (by omega)
    rw [toLower_eq, ht, if_neg (by omega)]
  · rw [toLower_eq c, if_neg h, toLower_eq c, if_neg h]

theorem sepChar_toLower (c : Char) (h : sepChar c = false) :
    sepChar (Char.toLower c) = false := by
  by_cases hc : c.toNat ≥ 65 ∧ c.toNat ≤ 90
  · rw [toLower_eq c, if_pos hc]
    have ht : (Char.ofNat (c.toNat + 32)).toNat = c.toNat + 32 :=
      char_toNat_ofNat _ (by omega)
    have hne : ∀ (d : Char) (n : Nat), d.toNat = n → c.toNat + 32 ≠ n →
        Char.ofNat (c.toNat + 32) ≠ d := by
      intro d n hdn hnd he
      exact hnd (by rw [← hdn, ← ht, he])
    simp only [sepChar, Char.isWhitespace, Bool.or_eq_false_iff,
      decide_eq_false_iff_not]
    exact ⟨⟨⟨⟨hne _ 32 rfl (by omega), hne _ 9 rfl (by omega)⟩,
      hne _ 13 rfl (by omega)⟩, hne _ 10 rfl (by omega)⟩,
      hne _ 45 rfl (by omega)⟩
  · rw [toLower_eq c, if_neg hc]
    exact h

theorem isUpper_iff_toNat (c : Char) :
    c.isUpper = true ↔ 65 ≤ c.toNat ∧ c.toNat ≤ 90 := by
  simp only [Char.isUpper, Bool.and_eq_true, decide_eq_true_iff, ge_iff_le]
  constructor
  · rintro ⟨h1, h2⟩
    exact ⟨h1, h2⟩
  · rintro ⟨h1, h2⟩
    exact ⟨h1, h2⟩

theorem isUpper_toLower (c : Char) : (Char.toLower c).isUpper = false := by
  by_cases hc : c.toNat ≥ 65 ∧ c.toNat ≤ 90
  · rw [toLower_eq c, if_pos hc]
    have ht : (Char.ofNat (c.toNat + 32)).toNat = c.toNat + 32 :=
      char_toNat_ofNat _ (by omega)
    rw [Bool.eq_false_iff]
    intro h
    have := (isUpper_iff_toNat _).mp h
    omega
  · rw [toLower_eq c, if_neg hc, Bool.eq_false_iff]
    intro h
    exact hc ((isUpper_iff_toNat _).mp h)

/-! ### Dict model -/

theorem dlookup_append_none {α : Type} (k : String) (m₁ m₂ : List (String × α))
    (h : dlookup k m₁ = none) : dlookup k (m₁ ++ m₂) = dlookup k m₂ := by
  induction m₁ with
  | nil => rfl
  | cons p m ih =>
    obtain ⟨a, b⟩ := p
    by_cases hk : k = a
    · simp [dlookup, hk] at h
    · simp only [dlookup, if_neg hk] at h ⊢
      exact ih h

theorem dlookup_dinsert_self {α : Type} (m : List (String × α)) (k : String) (v : α) :
    dlookup k (dinsert m k v) = some v := by
  unfold dinsert
  by_cases h : (dlookup k m).isSome
  · rw [if_pos h]
    induction m with
    | nil => simp [dlookup] at h
    | cons p m ih =>
      obtain ⟨a, b⟩ := p
      dsimp only [List.map_cons]
      by_cases hk : a = k
      · rw [if_pos hk]
        simp [dlookup]
      · rw [if_neg hk]
        have hk' : ¬ k = a := fun he => hk he.symm
        simp only [dlookup, if_neg hk']
        apply ih
        simpa [dlookup, if_neg hk'] using h
  · rw [if_neg h]
    rw [dlookup_append_none k m _ (by revert h; cases dlookup k m <;> simp)]
    simp [dlookup]

theorem dlookup_map_update_ne {α : Type} (m : List (String × α)) (k k' : String) (v : α)
    (h : k' ≠ k) :
    dlookup k' (m.map (fun p => if p.1 = k then (k, v) else p)) = dlookup k' m := by
  induction m with
  | nil => rfl
  | cons p m ih =>
    obtain ⟨a, b⟩ := p
    dsimp only [List.map_cons]
    by_cases hk : a = k
    · subst hk
      rw [if_pos rfl]
      simp only [dlookup, if_neg h]
      exact ih
    · rw [if_neg hk]
      simp only [dlookup]
      by_cases hk' : k' = a
      · rw [if_pos hk', if_pos hk']
      · rw [if_neg hk', if_neg hk', ih]

theorem dlookup_append_single_ne {α : Type} (m : List (String × α)) (k k' : String)
    (v : α) (h : k' ≠ k) : dlookup k' (m ++ [(k, v)]) = dlookup k' m := by
  induction m with
  | nil => simp [dlookup, if_neg h]
  | cons p m ih =>
    obtain ⟨a, b⟩ := p
    simp only [List.cons_append, dlookup]
    by_cases hk' : k' = a
    · rw [if_pos hk', if_pos hk']
    · rw [if_neg hk', if_neg hk']
      exact ih

theorem dlookup_dinsert_ne {α : Type} (m : List (String × α)) (k k' : String) (v : α)
    (h : k' ≠ k) : dlookup k' (dinsert m k v) = dlookup k' m := by
  unfold dinsert
  by_cases hs : (dlookup k m).isSome
  · rw [if_pos hs]
    exact dlookup_map_update_ne m k k' v h
  · rw [if_neg hs]
    exact dlookup_append_single_ne m k k' v h

theorem foldl_dinsert_fresh {α : Type} (ps : List (String × α)) (m : List (String × α))
    (hfresh : ∀ k ∈ ps.map Prod.fst, dlookup k m = none)
    (hnd : (ps.map Prod.fst).Nodup) :
    ps.foldl (fun m p => dinsert m p.1 p.2) m = m ++ ps := by
  induction ps generalizing m with
  | nil => simp
  | cons p ps ih =>
    obtain ⟨k, v⟩ := p
    simp only [List.map_cons, List.nodup_cons] at hnd
    have hkm : dlookup k m = none := hfresh k (by simp)
    have hins : dinsert m k v = m ++ [(k, v)] := by
      unfold dinsert
      rw [if_neg (by simp [hkm])]
    simp only [List.foldl_cons]
    rw [hins, ih (m ++ [(k, v)]) ?_ hnd.2]
    · simp
    · intro k' hk'
      have hne : k' ≠ k := by
        rintro rfl
        exact hnd.1 hk'
      rw [dlookup_append_single_ne _ _ _ _ hne]
      exact hfresh k' (by simp; right; simpa using hk')

theorem dictOfPairs_eq_self {α : Type} (ps : List (String × α))
    (hnd : (ps.map Prod.fst).Nodup) : dictOfPairs ps = ps := by
  unfold dictOfPairs
  rw [foldl_dinsert_fresh ps [] (fun k _ => rfl) hnd]
  simp

theorem rowToDict_keys {V : Type} (cols : List String) (r : List V)
    (hnd : cols.Nodup) (hlen : cols.length ≤ r.length) :
    (rowToDict cols r).map Prod.fst = cols := by
  unfold rowToDict
  have hz : (cols.zip r).map Prod.fst = cols := List.map_fst_zip cols r hlen
  rw [dictOfPairs_eq_self _ (by rw [hz]; exact hnd), hz]

/-! ### Words and dot-splitting -/

theorem mem_wordsAux_infix (l : List Char) :
    ∀ acc w, w ∈ wordsAux acc l → w <:+: acc.reverse ++ l := by
  induction l with
  | nil =>
    intro acc w hw
    unfold wordsAux at hw
    by_cases ha : acc = []
    · rw [if_pos ha] at hw
      simp at hw
    · rw [if_neg ha] at hw
      simp only [List.mem_singleton] at hw
      subst hw
      simp
  | cons c cs ih =>
    intro acc w hw
    unfold wordsAux at hw
    by_cases hc : c.isWhitespace
    · rw [if_pos hc] at hw
      have hcs_tail : cs <:+: acc.reverse ++ c :: cs := by
        rw [List.append_cons]
        exact (List.suffix_append _ _).isInfix
      by_cases ha : acc = []
      · rw [if_pos ha] at hw
        have hmem := ih [] w hw
        simp only [List.reverse_nil, List.nil_append] at hmem
        exact hmem.trans hcs_tail
      · rw [if_neg ha] at hw
        rcases List.mem_cons.mp hw with rfl | hw'
        · exact (List.prefix_append _ _).isInfix
        · have hmem := ih [] w hw'
          simp only [List.reverse_nil, List.nil_append] at hmem
          exact hmem.trans hcs_tail
    · rw [if_neg hc] at hw
      have hmem := ih (c :: acc) w hw
      simpa [List.append_assoc] using hmem

theorem mem_pywords_infix (l : List Char) (w : List Char) (hw : w ∈ pywords l) :
    w <:+: l := by
  have := mem_wordsAux_infix l [] w hw
  simpa using this

theorem splitDots_ne_nil (l : List Char) : splitDots l ≠ [] := by
  cases l with
  | nil => simp [splitDots]
  | cons c cs =>
    unfold splitDots
    by_cases hc : c = '.'
    · rw [if_pos hc]
      simp
    · rw [if_neg hc]
      cases splitDots cs <;> simp

theorem splitDots_singleton (l x : List Char) (h : splitDots l = [x]) : l = x := by
  induction l generalizing x with
  | nil =>
    exact (List.cons.inj h).1
  | cons c cs ih =>
    unfold splitDots at h
    by_cases hc : c = '.'
    · rw [if_pos hc] at h
      injection h with _ h2
      exact absurd h2 (splitDots_ne_nil cs)
    · rw [if_neg hc] at h
      rcases hcs : splitDots cs with _ | ⟨p, ps⟩
      · exact absurd hcs (splitDots_ne_nil cs)
      · rw [hcs] at h
        injection h with h1 h2
        subst h2
        rw [← h1, ih p hcs]

theorem splitDots_pair (l t c : List Char) (h : splitDots l = [t, c]) :
    l = t ++ '.' :: c := by
  induction l generalizing t with
  | nil => simp [splitDots] at h
  | cons c' cs ih =>
    unfold splitDots at h
    by_cases hc : c' = '.'
    · rw [if_pos hc] at h
      injection h with h1 h2
      subst hc
      rw [← h1, splitDots_singleton cs c h2]
      rfl
    · rw [if_neg hc] at h
      rcases hcs : splitDots cs with _ | ⟨p, ps⟩
      · exact absurd hcs (splitDots_ne_nil cs)
      · rw [hcs] at h
        injection h with h1 h2
        rw [← h1, List.cons_append]
        rw [ih p ?_]
        rw [hcs, h2]

/-! ### The validation loops -/

theorem checkWords_ok_false (tbl : List Char) (cols : List (List Char))
    (ws : List (List Char)) (h : checkWords tbl cols ws = Except.ok false) :
    ∃ w ∈ ws, ∃ t c, splitDots w = [t, c] ∧ t = tbl ∧ c ∉ cols := by
  induction ws with
  | nil => simp [checkWords] at h
  | cons w ws ih =>
    unfold checkWords at h
    by_cases hd : ('.' : Char) ∈ w
    · rw [if_pos hd] at h
      split at h
      · rename_i t' c' heq
        by_cases hcond : t' = tbl ∧ c' ∉ cols
        · exact ⟨w, List.mem_cons_self w ws, t', c', heq, hcond.1, hcond.2⟩
        · rw [if_neg hcond] at h
          obtain ⟨w', hw', rest⟩ := ih h
          exact ⟨w', List.mem_cons_of_mem w hw', rest⟩
      · simp at h
    · rw [if_neg hd] at h
      obtain ⟨w', hw', rest⟩ := ih h
      exact ⟨w', List.mem_cons_of_mem w hw', rest⟩

theorem checkWords_ok_true (tbl : List Char) (cols : List (List Char))
    (ws : List (List Char)) (h : checkWords tbl cols ws = Except.ok true) :
    ∀ w ∈ ws, ∀ t c, splitDots w = [t, c] → t = tbl → c ∈ cols := by
  induction ws with
  | nil =>
    intro w hw
    simp at hw
  | cons w ws ih =>
    intro w' hw' t c hsp ht
    unfold checkWords at h
    by_cases hd : ('.' : Char) ∈ w
    · rw [if_pos hd] at h
      split at h
      · rename_i t' c' heq
        by_cases hcond : t' = tbl ∧ c' ∉ cols
        · rw [if_pos hcond] at h
          simp at h
        · rw [if_neg hcond] at h
          rcases List.mem_cons.mp hw' with rfl | hmem
          · rw [heq] at hsp
            injection hsp with h1 h2
            injection h2 with h2 _
            subst h1 h2
            rcases not_and_or.mp hcond with hbad | hmemc
            · exact absurd ht hbad
            · exact not_not.mp hmemc
          · exact ih h w' hmem t c hsp ht
      · simp at h
    · rw [if_neg hd] at h
      rcases List.mem_cons.mp hw' with rfl | hmem
      · exfalso
        apply hd
        rw [splitDots_pair w' t c hsp]
        exact List.mem_append_right _ (List.mem_cons_self _ _)
      · exact ih h w' hmem t c hsp ht

theorem checkSchemas_ok_false (q : List Char) (ws : List (List Char))
    (ss : List DatabaseSchema) (h : checkSchemas q ws ss = Except.ok false) :
    ∃ s ∈ ss, ∃ w ∈ ws, ∃ t c,
      splitDots w = [t, c] ∧ t = s.table_name.data ∧ c ∉ colNamesL s := by
  induction ss with
  | nil => simp [checkSchemas] at h
  | cons s ss ih =>
    unfold checkSchemas at h
    by_cases hg : s.table_name.data <:+: q
    · rw [if_pos hg] at h
      split at h
      · obtain ⟨s', hs', rest⟩ := ih h
        exact ⟨s', List.mem_cons_of_mem s hs', rest⟩
      · obtain ⟨w, hw, rest⟩ := checkWords_ok_false _ _ _ h
        exact ⟨s, List.mem_cons_self s ss, w, hw, rest⟩
    · rw [if_neg hg] at h
      obtain ⟨s', hs', rest⟩ := ih h
      exact ⟨s', List.mem_cons_of_mem s hs', rest⟩

theorem checkSchemas_ok_true (q : List Char) (ws : List (List Char))
    (ss : List DatabaseSchema) (hws : ∀ w ∈ ws, w <:+: q)
    (h : checkSchemas q ws ss = Except.ok true) :
    ∀ s ∈ ss, ∀ w ∈ ws, ∀ t c,
      splitDots w = [t, c] → t = s.table_name.data → c ∈ colNamesL s := by
  induction ss with
  | nil =>
    intro s hs
    simp at hs
  | cons s₀ ss ih =>
    intro s hs w hw t c hsp ht
    unfold checkSchemas at h
    by_cases hg : s₀.table_name.data <:+: q
    · rw [if_pos hg] at h
      split at h
      · rename_i heq
        rcases List.mem_cons.mp hs with rfl | hmem
        · exact checkWords_ok_true _ _ _ heq w hw t c hsp ht
        · exact ih h s hmem w hw t c hsp ht
      · rename_i hne
        exact absurd h hne
    · rw [if_neg hg] at h
      rcases List.mem_cons.mp hs with rfl | hmem
      · exfalso
        apply hg
        have hpre : t <+: w := ⟨'.' :: c, (splitDots_pair w t c hsp).symm⟩
        rw [← ht]
        exact hpre.isInfix.trans (hws w hw)
      · exact ih h s hmem w hw t c hsp ht

theorem checkSchemas_skip (q : List Char) (ws : List (List Char))
    (ss₁ ss₂ : List DatabaseSchema) (s : DatabaseSchema)
    (hg : ¬ (s.table_name.data <:+: q)) :
    checkSchemas q ws (ss₁ ++ s :: ss₂) = checkSchemas q ws (ss₁ ++ ss₂) := by
  induction ss₁ with
  | nil =>
    simp only [List.nil_append]
    conv_lhs => rw [checkSchemas]
    rw [if_neg hg]
  | cons s₀ ss₁ ih =>
    simp only [List.cons_append]
    conv_lhs => rw [checkSchemas]
    conv_rhs => rw [checkSchemas]
    rw [ih]

/-! ### Sanitization lemmas -/

theorem sanitizeAux_chars (b : Bool) (l : List Char) :
    ∀ c ∈ sanitizeAux b l, sepChar c = false ∧ Char.toLower c = c := by
  induction l generalizing b with
  | nil =>
    intro c hc
    simp [sanitizeAux] at hc
  | cons c₀ cs ih =>
    intro c hc
    unfold sanitizeAux at hc
    by_cases hs : sepChar c₀ = true
    · rw [if_pos hs] at hc
      by_cases hb : b = true
      · rw [if_pos hb] at hc
        exact ih true c hc
      · rw [if_neg hb] at hc
        rcases List.mem_cons.mp hc with rfl | hmem
        · exact ⟨by decide, by decide⟩
        · exact ih true c hmem
    · rw [if_neg hs] at hc
      rcases List.mem_cons.mp hc with rfl | hmem
      · exact ⟨sepChar_toLower c₀ (by simpa using hs), toLower_toLower c₀⟩
      · exact ih false c hmem

theorem sanitizeAux_fixed (l : List Char)
    (hprop : ∀ c ∈ l, sepChar c = false ∧ Char.toLower c = c) :
    ∀ b, sanitizeAux b l = l := by
  induction l with
  | nil =>
    intro b
    rfl
  | cons c cs ih =>
    intro b
    have hc := hprop c (List.mem_cons_self c cs)
    unfold sanitizeAux
    rw [if_neg (by simp [hc.1])]
    rw [hc.2, ih (fun c' hc' => hprop c' (List.mem_cons_of_mem c hc')) false]

theorem sanitize_idem (x : String) : sanitize (sanitize x) = sanitize x := by
  show String.mk (sanitizeAux false (sanitizeAux false x.data)) =
    String.mk (sanitizeAux false x.data)
  exact congrArg String.mk (sanitizeAux_fixed _ (sanitizeAux_chars false x.data) false)

/-! ## Claims -/

/-- C1 (counterexample): `validate_query` does not return a boolean on every
query.  On `"select x.y.z from products"` no token references a
`table.column` of a registered table, so the claim asserts the method
returns `True`; the code instead raises a `ValueError` (the token `x.y.z`
splits into three parts). -/
theorem validate_query_total_cex :
    validate_query defaultRegistry "select x.y.z from products" = Except.error () ∧
    (Except.error () : Except Unit Bool) ≠ Except.ok true ∧
    (Except.error () : Except Unit Bool) ≠ Except.ok false :=
  ⟨rfl, by simp, by simp⟩

/-- C1 (amended): provided `validate_query` returns a boolean at all (it
raises when a token with two or more dots is scanned), the result is
`False` iff some whitespace-separated token of the lowercased query splits
at `.` into exactly a table part equal to a registered schema's stored
table name and a column part not among that schema's known columns;
otherwise the result is `True`. -/
theorem validate_query_false_iff (reg : Registry) (query : String) (b : Bool)
    (h : validate_query reg query = Except.ok b) :
    b = false ↔
      ∃ s ∈ reg.map Prod.snd, ∃ w ∈ pywords (lowerChars query.data),
        ∃ t c, splitDots w = [t, c] ∧ t = s.table_name.data ∧ c ∉ colNamesL s := by
  unfold validate_query at h
  constructor
  · rintro rfl
    exact checkSchemas_ok_false _ _ _ h
  · rintro ⟨s, hs, w, hw, t, c, hsp, ht, hc⟩
    cases b
    · rfl
    · exact absurd
        (checkSchemas_ok_true _ _ _ (fun w' hw' => mem_pywords_infix _ _ hw') h
          s hs w hw t c hsp ht) hc

/-- C1 witness: with the default registry, the rejected query
`"select products.bad from products"` exhibits the bad token the amended
claim demands. -/
theorem validate_query_false_iff_witness :
    validate_query defaultRegistry "select products.bad from products" =
      Except.ok false ∧
    (∃ s ∈ defaultRegistry.map Prod.snd,
      ∃ w ∈ pywords (lowerChars "select products.bad from products".data),
        ∃ t c, splitDots w = [t, c] ∧ t = s.table_name.data ∧ c ∉ colNamesL s) :=
  ⟨rfl, (validate_query_false_iff defaultRegistry
    "select products.bad from products" false rfl).mp rfl⟩

/-- C2 (counterexample): `execute` raises a `ValueError` on the empty
query (which is present and which `validate_query` accepts), and raises
the tuple-unpacking `ValueError` escaping `validate_query` on a present
query that `validate_query` neither accepts nor rejects. -/
theorem execute_valueError_cex :
    (execute defaultRegistry db0 (some "")).1 =
      Except.error ExecError.missingQuery ∧
    validate_query defaultRegistry "" = Except.ok true ∧
    (execute defaultRegistry db0 (some "select products.a.b from products")).1 =
      Except.error ExecError.validateRaise ∧
    validate_query defaultRegistry "select products.a.b from products" =
      Except.error () :=
  ⟨rfl, rfl, rfl, rfl⟩

/-- C2 (amended): `execute` raises a `ValueError` iff the `query` parameter
is absent or empty, or `validate_query` fails to return `True` on it
(returning `False` or raising); in all other cases no `ValueError` is
raised and the query is executed against the store (a connection is opened
and closed). -/
theorem execute_valueError_iff {ε V : Type} (reg : Registry)
    (db : String → Except ε (List String × List (List V)))
    (params : Option String) :
    ((∃ e, (execute reg db params).1 = Except.error e ∧ isValueError e = true) ↔
      (params = none ∨ params = some "" ∨
        ∃ q, params = some q ∧ validate_query reg q ≠ Except.ok true)) ∧
    (∀ q, params = some q → q ≠ "" → validate_query reg q = Except.ok true →
      (execute reg db params).2 = [ConnEvent.opened, ConnEvent.closed]) := by
  rcases params with _ | q
  · refine ⟨⟨fun _ => Or.inl rfl, fun _ => ⟨ExecError.missingQuery, rfl, rfl⟩⟩, ?_⟩
    intro q hq
    exact absurd hq (by simp)
  · by_cases hq : q = ""
    · subst hq
      refine ⟨⟨fun _ => Or.inr (Or.inl rfl),
        fun _ => ⟨ExecError.missingQuery, by simp [execute], rfl⟩⟩, ?_⟩
      intro q' hq' hne _
      injection hq' with h
      exact absurd h.symm hne
    · rcases hv : validate_query reg q with u | b
      · have h1 : (execute reg db (some q)).1 =
            Except.error ExecError.validateRaise := by
          simp [execute, hq, hv]
        refine ⟨⟨fun _ => Or.inr (Or.inr ⟨q, rfl, by simp [hv]⟩),
          fun _ => ⟨ExecError.validateRaise, h1, rfl⟩⟩, ?_⟩
        intro q' hq' _ hv'
        injection hq' with h
        subst h
        rw [hv] at hv'
        exact Except.noConfusion hv'
      · cases b
        · have h1 : (execute reg db (some q)).1 =
              Except.error ExecError.invalidColumns := by
            simp [execute, hq, hv]
          refine ⟨⟨fun _ => Or.inr (Or.inr ⟨q, rfl, by simp [hv]⟩),
            fun _ => ⟨ExecError.invalidColumns, h1, rfl⟩⟩, ?_⟩
          intro q' hq' _ hv'
          injection hq' with h
          subst h
          rw [hv] at hv'
          exact absurd hv' (by simp)
        · rcases hdb : db q with e | pr
          · have h1 : (execute reg db (some q)).1 =
                Except.error (ExecError.dbError e) := by
              simp [execute, hq, hv, hdb]
            have h2 : (execute reg db (some q)).2 =
                [ConnEvent.opened, ConnEvent.closed] := by
              simp [execute, hq, hv, hdb]
            refine ⟨⟨?_, ?_⟩, fun q' hq' hne hv' => h2⟩
            · rintro ⟨e', he', hval⟩
              rw [h1] at he'
              injection he' with h
              rw [← h] at hval
              simp [isValueError] at hval
            · rintro (h | h | ⟨q', hq', hval⟩)
              · exact absurd h (by simp)
              · injection h with h'
                exact absurd h' hq
              · injection hq' with h'
                subst h'
                exact absurd hv hval
          · obtain ⟨cols, rows⟩ := pr
            have h1 : (execute reg db (some q)).1 =
                Except.ok (rows.map (rowToDict cols)) := by
              simp [execute, hq, hv, hdb]
            have h2 : (execute reg db (some q)).2 =
                [ConnEvent.opened, ConnEvent.closed] := by
              simp [execute, hq, hv, hdb]
            refine ⟨⟨?_, ?_⟩, fun q' hq' hne hv' => h2⟩
            · rintro ⟨e', he', hval⟩
              rw [h1] at he'
              exact Except.noConfusion he'
            · rintro (h | h | ⟨q', hq', hval⟩)
              · exact absurd h (by simp)
              · injection h with h'
                exact absurd h' hq
              · injection hq' with h'
                subst h'
                exact absurd hv hval

/-- C2 witness: a present, accepted query is executed (connection opened
and closed) with no `ValueError`. -/
theorem execute_valueError_iff_witness :
    (execute defaultRegistry db0 (some "select products.title from products")).2 =
      [ConnEvent.opened, ConnEvent.closed] :=
  (execute_valueError_iff defaultRegistry db0
    (some "select products.title from products")).2
    "select products.title from products" rfl (by decide) rfl

/-- C3: on every exit path of `execute` — successful return, store error,
or validation/argument error raised before execution — the connection
event trace is balanced: either no connection was opened (errors before
execution) or exactly one was opened and then closed. -/
theorem execute_connection_balanced {ε V : Type} (reg : Registry)
    (db : String → Except ε (List String × List (List V)))
    (params : Option String) :
    (execute reg db params).2 = [] ∨
    (execute reg db params).2 = [ConnEvent.opened, ConnEvent.closed] := by
  rcases params with _ | q
  · exact Or.inl rfl
  · by_cases hq : q = ""
    · subst hq
      left
      simp [execute]
    · rcases hv : validate_query reg q with u | b
      · left
        simp [execute, hq, hv]
      · cases b
        · left
          simp [execute, hq, hv]
        · rcases hdb : db q with e | ⟨cols, rows⟩
          · right
            simp [execute, hq, hv, hdb]
          · right
            simp [execute, hq, hv, hdb]

/-- C4 (counterexample): when the store reports a duplicated column name
(as SQLite does for `SELECT title, title FROM products`), the produced
row mapping collapses the duplicate key, so its keys are not the reported
column list. -/
theorem execute_dup_columns_cex :
    dbDup "select title, title from products" =
      Except.ok (["title", "title"], [[1, 2]]) ∧
    (execute defaultRegistry dbDup (some "select title, title from products")).1 =
      Except.ok [[("title", 2)]] ∧
    ([(("title" : String), (2 : Nat))].map Prod.fst ≠ ["title", "title"]) :=
  ⟨rfl, rfl, by simp⟩

/-- C4 (amended): when `execute` succeeds and the store's reported column
names are pairwise distinct with each row at least as long as the column
list (SQLite reports rows of exactly that length), the result is one
mapping per row in store order, and each mapping's keys are exactly the
reported column names in the store's order. -/
theorem execute_rows_spec {ε V : Type} (reg : Registry)
    (db : String → Except ε (List String × List (List V))) (q : String)
    (cols : List String) (rows : List (List V))
    (hq : q ≠ "") (hv : validate_query reg q = Except.ok true)
    (hdb : db q = Except.ok (cols, rows)) (hnd : cols.Nodup)
    (hlen : ∀ r ∈ rows, cols.length ≤ r.length) :
    (execute reg db (some q)).1 = Except.ok (rows.map (rowToDict cols)) ∧
    ∀ r ∈ rows, (rowToDict cols r).map Prod.fst = cols := by
  constructor
  · simp [execute, hq, hv, hdb]
  · intro r hr
    exact rowToDict_keys cols r hnd (hlen r hr)

/-- C4 witness: the end-to-end scenario — a query selecting `title` and
`price` yields row mappings whose keys are exactly `title, price`. -/
theorem execute_rows_spec_witness :
    (execute defaultRegistry db0 (some "select title, price from products")).1 =
      Except.ok [[("title", 1), ("price", 2)], [("title", 3), ("price", 4)]] ∧
    ∀ r ∈ [[1, 2], [3, 4]],
      (rowToDict ["title", "price"] r).map Prod.fst = ["title", "price"] := by
  have h := execute_rows_spec defaultRegistry db0
    "select title, price from products" ["title", "price"] [[1, 2], [3, 4]]
    (by decide) rfl rfl (by simp) (by decide)
  refine ⟨?_, h.2⟩
  rw [h.1]
  rfl

/-- C5: with the default `products` schema registered, `validate_query`
rejects `SELECT products.nonexistent FROM products` and accepts
`SELECT products.title FROM products`. -/
theorem validate_query_examples :
    validate_query defaultRegistry "SELECT products.nonexistent FROM products" =
      Except.ok false ∧
    validate_query defaultRegistry "SELECT products.title FROM products" =
      Except.ok true :=
  ⟨rfl, rfl⟩

/-- C6: `register_schema` inserts the schema keyed by its table name,
overwriting any schema previously registered under that name, and leaves
lookups under every other table name unchanged. -/
theorem register_schema_spec (m : Registry) (s : DatabaseSchema) (k : String)
    (h : k ≠ s.table_name) :
    dlookup s.table_name (register_schema m s) = some s ∧
    dlookup k (register_schema m s) = dlookup k m :=
  ⟨dlookup_dinsert_self m s.table_name s, dlookup_dinsert_ne m s.table_name k s h⟩

/-- C6 witness: registering a second schema over the default registry. -/
theorem register_schema_spec_witness :
    dlookup "Products" (register_schema defaultRegistry upperSchema) =
      some upperSchema ∧
    dlookup "products" (register_schema defaultRegistry upperSchema) =
      dlookup "products" defaultRegistry :=
  register_schema_spec defaultRegistry upperSchema "products" (by decide)

/-- C7: tool-name sanitization (modelled from the spec) is deterministic
and idempotent, and maps `Test-Tool`, `test tool` and `test-tool-123` to
`test_tool`, `test_tool` and `test_tool_123`. -/
theorem sanitize_spec :
    (∀ x, sanitize (sanitize x) = sanitize x) ∧
    sanitize "Test-Tool" = "test_tool" ∧
    sanitize "test tool" = "test_tool" ∧
    sanitize "test-tool-123" = "test_tool_123" :=
  ⟨sanitize_idem, rfl, rfl, rfl⟩

/-- C8: `validate_query` is not total: on
`select products.x.y from products` — a registered table name occurs in
the query and a token carries two dots — the tuple unpacking
`table, column = word.split('.')` raises instead of returning a boolean. -/
theorem validate_query_multi_dot_raises :
    validate_query defaultRegistry "select products.x.y from products" =
      Except.error () :=
  rfl

/-- C9: a freshly constructed `DatabaseQueryTool` already holds the
`products` schema with exactly the columns `id, title, description, price,
category, stock, created_at`, and its `validate_query` already rejects a
query referencing an unknown `products` column. -/
theorem default_registry_products :
    defaultRegistry = [("products", productsSchema)] ∧
    productsSchema.columns.map Prod.fst =
      ["id", "title", "description", "price", "category", "stock", "created_at"] ∧
    validate_query defaultRegistry "select products.foo from products" =
      Except.ok false :=
  ⟨rfl, rfl, rfl⟩

/-- C10: a registered schema whose stored table name contains an uppercase
character never influences `validate_query`: since the query is lowercased
but the stored name is not, the substring guard never fires, so the schema
can be removed from the registry without changing any result. -/
theorem validate_query_uppercase_schema_inert (reg₁ reg₂ : Registry)
    (k : String) (s : DatabaseSchema)
    (hup : ∃ ch ∈ s.table_name.data, ch.isUpper = true) (query : String) :
    validate_query (reg₁ ++ (k, s) :: reg₂) query =
      validate_query (reg₁ ++ reg₂) query := by
  unfold validate_query
  rw [List.map_append, List.map_append, List.map_cons]
  apply checkSchemas_skip
  intro hinf
  obtain ⟨ch, hch, hupch⟩ := hup
  have hmem : ch ∈ lowerChars query.data := hinf.subset hch
  obtain ⟨c', _, hc'⟩ := List.mem_map.mp hmem
  rw [← hc', isUpper_toLower c'] at hupch
  exact Bool.noConfusion hupch

/-- C10 witness: a capitalized `Products` schema in front of the default
registry changes no validation result, even for a query mentioning
`Products` and a column unknown to it. -/
theorem validate_query_uppercase_schema_inert_witness :
    validate_query ([] ++ ("Products", upperSchema) :: defaultRegistry)
        "select products.qty from Products" =
      validate_query ([] ++ defaultRegistry)
        "select products.qty from Products" :=
  validate_query_uppercase_schema_inert [] defaultRegistry "Products"
    upperSchema ⟨'P', by decide, by decide⟩ "select products.qty from Products"

end MCPBridge
